import Mathlib

/-!
Verification development for the bdsm-message scheduling plugin.

The definitions below are a shallow embedding of `src/__init__.py`:

* `parse_content_to_message` embeds the content-markup parser
  (`parse_content_to_message`, lines 256-286 of the source);
* `save_to_queue`, `remove_from_queue`, `loadAll` embed the queue file
  operations (lines 217-253);
* `on_startup` embeds the startup reconciliation (lines 133-166);
* `execute_scheduled_task` embeds the scheduled-task executor
  (lines 168-214);
* `handle_sendmessage`, `handle_forwardmessage`, `handle_schedulemessage`,
  `handle_cancelmessage` embed the per-command-type branches of
  `handle_message` (lines 388-605).

Text is modelled as `List Char`.  The backing queue file is modelled by the
four states the source code distinguishes: missing, text that fails JSON
parsing, JSON that parses to a non-object, and a JSON object (an
association list of job-id/record pairs; JSON object keys are unique, so an
association list with at-most-one binding per key is the faithful image).
External collaborators (the chat transport and the APScheduler instance)
are modelled by explicit parameters: a transport call that can fail is an
`Option` result, and the scheduler is the list of its live registrations.
-/

/-! ## Characters and low-level text helpers -/

/-- Boolean prefix test on character lists (used to model anchored regex
matching at a position). -/
def leadsWith : List Char → List Char → Bool
  | [], _ => true
  | _ :: _, [] => false
  | a :: as, b :: bs => a == b && leadsWith as bs

/-- Model of Python `str.replace("\\n", "\n")`: a left-to-right,
non-overlapping replacement of the two-character sequence backslash-n by a
newline character. -/
def replaceEscape : List Char → List Char
  | [] => []
  | [c] => [c]
  | a :: b :: rest =>
    if a = '\\' ∧ b = 'n' then '\n' :: replaceEscape rest
    else a :: replaceEscape (b :: rest)

/-- The literal at-all tag `\x7bat_all\x7d`. -/
def atAllTag : List Char := ['\x7b', 'a', 't', '_', 'a', 'l', 'l', '\x7d']

/-- The opening part of the image tag, `\x7b:Image(url="`. -/
def imgOpen : List Char :=
  ['\x7b', ':', 'I', 'm', 'a', 'g', 'e', '(', 'u', 'r', 'l', '=', '"']

/-- The closing of the image tag, `")\x7d`. -/
def imgClose : List Char := ['"', ')', '\x7d']

/-- Model of the lazy `.*?` followed by `"\)\x7d` in the tag regex: scan for
the earliest occurrence of the closing `")\x7d`; `.` does not match a
newline, so a newline before any closing makes the whole match fail.
Returns the captured URL and the remainder after the closing. -/
def findImgClose : List Char → Option (List Char × List Char)
  | [] => none
  | c :: rest =>
    if leadsWith imgClose (c :: rest) then some ([], (c :: rest).drop 3)
    else if c = '\n' then none
    else (findImgClose rest).map (fun p => (c :: p.1, p.2))

/-- Model of matching the tag alternation
`(\x7bat_all\x7d|\x7b\:Image\(url\=".*?"\)\x7d)` anchored at the head of
`s`.  The regex alternation tries the at-all literal first.  On success,
returns the matched tag text and the remainder of the string. -/
def matchTagHere (s : List Char) : Option (List Char × List Char) :=
  if leadsWith atAllTag s then some (atAllTag, s.drop atAllTag.length)
  else if leadsWith imgOpen s then
    match findImgClose (s.drop imgOpen.length) with
    | some (url, rem) => some (imgOpen ++ url ++ imgClose, rem)
    | none => none
  else none

/-- `true` iff the tag regex matches somewhere in `s`. -/
def hasTag : List Char → Bool
  | [] => false
  | c :: rest => (matchTagHere (c :: rest)).isSome || hasTag rest

/-- Fuel-driven worker for `splitTags`; the fuel is always at least the
length of the string plus one, so the base case is never reached on the
arguments `splitTags` supplies. -/
def splitTagsAux : Nat → List Char → List Char → List (List Char)
  | 0, acc, _ => [acc.reverse]
  | fuel + 1, acc, s =>
    match matchTagHere s with
    | some tr => acc.reverse :: tr.1 :: splitTagsAux fuel [] tr.2
    | none =>
      match s with
      | [] => [acc.reverse]
      | c :: rest => splitTagsAux fuel (c :: acc) rest

/-- Model of `re.split(tag_regex, content)` with the capture group retained:
the pieces between matches and the matched tags themselves, in order
(empty pieces included, as `re.split` produces them). -/
def splitTags (s : List Char) : List (List Char) :=
  splitTagsAux (s.length + 1) [] s

/-- A message segment, the output alphabet of the content-markup parser. -/
inductive Seg where
  | text (s : List Char)
  | atAll
  | image (url : List Char)
deriving DecidableEq, Repr

/-- Model of `re.match(image_url_regex, part)` followed by
`re.search(...).group(1)`: an anchored match of the image tag at the start
of `part`, returning the lazily captured URL. -/
def imageUrlAtFront (p : List Char) : Option (List Char) :=
  if leadsWith imgOpen p then (findImgClose (p.drop imgOpen.length)).map (·.1)
  else none

/-- The per-piece classification loop of `parse_content_to_message`:
empty pieces are dropped, the at-all literal becomes an at-all segment, a
piece matching the image pattern at its front becomes an image segment
holding the captured URL, anything else becomes a text segment. -/
def classifyPart (p : List Char) : Option Seg :=
  if p = [] then none
  else if p = atAllTag then some Seg.atAll
  else
    match imageUrlAtFront p with
    | some url => some (Seg.image url)
    | none => some (Seg.text p)

/-- Embedding of `parse_content_to_message` (source lines 256-286): resolve
escaped newlines, split on the tag regex keeping the tags, then classify
each piece. -/
def parse_content_to_message (content : List Char) : List Seg :=
  (splitTags (replaceEscape content)).filterMap classifyPart

/-! ## The job-queue store -/

/-- Model of Python `datetime` values (naive, second precision, as produced
by `strptime`). -/
structure DT where
  year : Nat
  month : Nat
  day : Nat
  hour : Nat
  minute : Nat
  second : Nat
deriving DecidableEq, Repr

/-- Injective numeric key of a datetime.  All fields of a real Python
`datetime` are bounded below 100 except the year, so comparing keys is the
lexicographic field comparison Python's `datetime.__lt__` performs. -/
def DT.key (t : DT) : Nat :=
  ((((t.year * 100 + t.month) * 100 + t.day) * 100 + t.hour) * 100
      + t.minute) * 100 + t.second

/-- A durable job record, the value type of the queue file's JSON object.
The source stores the timestamp as an ISO-8601 string produced by
`isoformat()` and reads it back with `fromisoformat`, a round-trip, so the
model keeps the datetime value itself. -/
structure JobRecord where
  timestamp : DT
  type : List Char
  content : List Char
  target_group : Nat
deriving DecidableEq, Repr

/-- The states of the backing queue file that the source distinguishes:
the file is absent; the file's text fails `json.load`; the text parses to a
non-object (`falsy` records whether the parsed value is falsy in Python,
e.g. `[]`, which the `schedulemessage` branch distinguishes); or it parses
to a JSON object, held as an association list. -/
inductive QueueFile where
  | missing
  | invalidJson
  | nonObject (falsy : Bool)
  | obj (entries : List (List Char × JobRecord))
deriving DecidableEq, Repr

/-- Association-list lookup by job id. -/
def lookupKey {V : Type} (es : List (List Char × V)) (k : List Char) :
    Option V :=
  match es with
  | [] => none
  | p :: rest => if p.1 = k then some p.2 else lookupKey rest k

/-- Python `dict` assignment `queue[job_id] = info` on the association-list
image of a JSON object: replace the value of an existing binding in place,
else append a new binding. -/
def dictSet {V : Type} (es : List (List Char × V)) (k : List Char) (v : V) :
    List (List Char × V) :=
  if es.any (fun p => p.1 == k) then
    es.map (fun p => if p.1 = k then (k, v) else p)
  else es ++ [(k, v)]

/-- Python `del queue[job_id]` on the association-list image.  JSON object
keys are unique, so deleting the single binding equals filtering the key
out. -/
def dictRemove {V : Type} (es : List (List Char × V)) (k : List Char) :
    List (List Char × V) :=
  es.filter (fun p => !(p.1 == k))

/-- The read-and-recover pattern shared by `on_startup` and
`save_to_queue`: a missing, unparseable or non-object file is treated as
the empty mapping. -/
def loadAll (fs : QueueFile) : List (List Char × JobRecord) :=
  match fs with
  | .obj es => es
  | _ => []

/-- Embedding of `save_to_queue` (source lines 217-233): re-read the whole
file, recovering corruption as the empty mapping, set the binding, write
the whole file back. -/
def save_to_queue (job_id : List Char) (task_info : JobRecord)
    (fs : QueueFile) : QueueFile :=
  .obj (dictSet (loadAll fs) job_id task_info)

/-- Embedding of `remove_from_queue` (source lines 236-253): a missing,
unparseable or non-object file is returned untouched (the function returns
early without writing); with a valid object, the binding is deleted and the
file rewritten only when the id is present. -/
def remove_from_queue (job_id : List Char) (fs : QueueFile) : QueueFile :=
  match fs with
  | .obj es =>
    if es.any (fun p => p.1 == job_id) then .obj (dictRemove es job_id)
    else .obj es
  | other => other

/-! ## Timestamp parsing -/

/-- Numeric value of a list of ASCII digit characters. -/
def digitsVal (cs : List Char) : Nat :=
  cs.foldl (fun n c => 10 * n + (c.toNat - 48)) 0

/-- Model of Python `str.isdigit()` (restricted to ASCII text): true iff
the string is non-empty and every character is a digit.  In particular the
empty string is not all-digits. -/
def pyIsDigit (s : List Char) : Bool :=
  !s.isEmpty && s.all Char.isDigit

/-- Days in a month, with Gregorian leap years. -/
def daysInMonth (y m : Nat) : Nat :=
  if m = 2 then
    if (y % 4 = 0 ∧ ¬ y % 100 = 0) ∨ y % 400 = 0 then 29 else 28
  else if m = 4 ∨ m = 6 ∨ m = 9 ∨ m = 11 then 30 else 31

/-- The validity check Python's `datetime` constructor performs (and that
`datetime.strptime` therefore enforces): year 1-9999, month 1-12, day
within the month, hour 0-23, minute and second 0-59. -/
def DT.valid (t : DT) : Bool :=
  1 ≤ t.year && t.year ≤ 9999 && 1 ≤ t.month && t.month ≤ 12 &&
  1 ≤ t.day && t.day ≤ daysInMonth t.year t.month &&
  t.hour ≤ 23 && t.minute ≤ 59 && t.second ≤ 59

/-- Model of `datetime.strptime(s, "%Y%m%d%H%M")` on an all-digit string:
on a 12-digit input every field must consume exactly two digits (four for
the year) for the whole string to be consumed, so the parse reads fixed
slices and the result must be a valid datetime; anything else raises
`ValueError`, modelled as `none`.  Seconds default to 0. -/
def strptime12 (cs : List Char) : Option DT :=
  if cs.length = 12 ∧ cs.all Char.isDigit then
    let t : DT :=
      { year := digitsVal (cs.take 4)
        month := digitsVal ((cs.drop 4).take 2)
        day := digitsVal ((cs.drop 6).take 2)
        hour := digitsVal ((cs.drop 8).take 2)
        minute := digitsVal ((cs.drop 10).take 2)
        second := 0 }
    if t.valid then some t else none
  else none

/-- Model of `datetime.strptime(s, "%Y%m%d%H%M%S")` on an all-digit
14-digit string, as `strptime12` with an explicit seconds field. -/
def strptime14 (cs : List Char) : Option DT :=
  if cs.length = 14 ∧ cs.all Char.isDigit then
    let t : DT :=
      { year := digitsVal (cs.take 4)
        month := digitsVal ((cs.drop 4).take 2)
        day := digitsVal ((cs.drop 6).take 2)
        hour := digitsVal ((cs.drop 8).take 2)
        minute := digitsVal ((cs.drop 10).take 2)
        second := digitsVal ((cs.drop 12).take 2) }
    if t.valid then some t else none
  else none

/-- The length dispatch both scheduling branches perform on an all-digit
timestamp field: 14 digits are parsed as `YYYYMMDDHHMMSS`, 12 digits as
`YYYYMMDDHHMM`, and any other length raises
`ValueError("Incorrect timestamp length")`, caught by the same handler as
a parse failure. -/
def sendParseTs (ts : List Char) : Option DT :=
  if ts.length = 14 then strptime14 ts
  else if ts.length = 12 then strptime12 ts
  else none

/-! ## The scheduler collaborator -/

/-- One live APScheduler registration: the job id, the absolute run date,
and the four callback arguments `[command_type, content, target_group,
job_id]` passed to `execute_scheduled_task`. -/
structure Registration where
  id : List Char
  runDate : DT
  argType : List Char
  argContent : List Char
  argGroup : Nat
  argJobId : List Char
deriving DecidableEq, Repr

/-- The scheduler's live state: its list of registrations. -/
abbrev Sched : Type := List Registration

/-- Model of `scheduler.add_job(..., id=job_id, ...)`: APScheduler raises
`ConflictingIdError` when a job with the same id is already registered,
modelled as `Except.error`. -/
def addJob (sch : Sched) (r : Registration) : Except Unit Sched :=
  if (sch : List Registration).any (fun q => q.id == r.id) then .error ()
  else .ok (sch ++ [r])

/-- The job-id strings `"job_"` / `"job_forward_"` computed at source lines
410 and 463.  The source renders `str(send_time.timestamp())`, the POSIX
seconds of the datetime; the model renders the datetime's digit key
instead.  Both renderings are injective in the pair (send time, target
group) for a fixed prefix, and no claim depends on the exact characters. -/
def mkJobId (fwd : Bool) (t : DT) (tg : Nat) : List Char :=
  (if fwd then
    ['j', 'o', 'b', '_', 'f', 'o', 'r', 'w', 'a', 'r', 'd', '_']
  else ['j', 'o', 'b', '_'])
    ++ Nat.toDigits 10 t.key ++ ['_'] ++ Nat.toDigits 10 tg

/-! ## Replies and outcomes -/

/-- The user-visible replies the modelled branches can produce.  Each
constructor stands for one literal reply string of the source (payloads
record the data interpolated into it).  `crash` marks the one modelled path
where an uncaught exception escapes the handler (no reply reaches the
user). -/
inductive Reply where
  | sentOk (tg msgId : Nat)
  | sendFailed (tg : Nat)
  | scheduledOk (t : DT) (jid : List Char)
  | invalidTimestampFormat
  | scheduleFailed
  | forwardedOk (tg msgId : Nat)
  | forwardFailed (tg : Nat)
  | forwardScheduledOk (t : DT) (jid : List Char)
  | forwardScheduleFailed
  | mustReplyToForward
  | queueEmpty
  | couldNotReadQueue
  | invalidContentRegex
  | noTasksMatch
  | taskList (tasks : List (List Char × JobRecord))
  | cancelNeedsMinus1
  | cancelOk (jid : List Char)
  | cancelFailed (jid : List Char)
  | crash
deriving DecidableEq, Repr

/-- The observable outcome of one dispatcher branch: the queue file after
the branch, the scheduler state after it, and the replies sent, in
order. -/
structure Outcome where
  store : QueueFile
  sched : Sched
  replies : List Reply
deriving DecidableEq, Repr

/-! ## The dispatcher branches -/

/-- The literal timestamp field `"0"`. -/
def zeroTs : List Char := ['0']

/-- The literal timestamp field `"-1"`. -/
def minusOneTs : List Char := ['-', '1']

/-- The literal command keyword `"sendmessage"`. -/
def sendKind : List Char :=
  ['s', 'e', 'n', 'd', 'm', 'e', 's', 's', 'a', 'g', 'e']

/-- The literal command keyword `"forwardmessage"`. -/
def forwardKind : List Char :=
  ['f', 'o', 'r', 'w', 'a', 'r', 'd', 'm', 'e', 's', 's', 'a', 'g', 'e']

/-- Embedding of the `sendmessage` branch of `handle_message` (source lines
388-436), after the group-number and receiver-list validations.
`sendResult` models the transport call `bot.send_group_msg` of the
immediate branch: `some msgId` when it returns, `none` when it raises.
A `"0"` timestamp sends immediately; an all-digit timestamp is parsed by
the 14/12 length dispatch, the job is registered with the scheduler and
then persisted; a timestamp that is neither `"0"` nor all digits falls
through the `if`/`elif` chain silently. -/
def handle_sendmessage (ts content : List Char) (tg : Nat)
    (sendResult : Option Nat) (fs : QueueFile) (sch : Sched) : Outcome :=
  if ts = zeroTs then
    match sendResult with
    | some mid => ⟨fs, sch, [.sentOk tg mid]⟩
    | none => ⟨fs, sch, [.sendFailed tg]⟩
  else if pyIsDigit ts then
    match sendParseTs ts with
    | none => ⟨fs, sch, [.invalidTimestampFormat]⟩
    | some t =>
      let jid := mkJobId false t tg
      match addJob sch ⟨jid, t, sendKind, content, tg, jid⟩ with
      | .error _ => ⟨fs, sch, [.scheduleFailed]⟩
      | .ok sch' =>
        ⟨save_to_queue jid ⟨t, sendKind, content, tg⟩ fs, sch',
          [.scheduledOk t jid]⟩
  else ⟨fs, sch, []⟩

/-- Embedding of the `forwardmessage` branch (source lines 438-489).
`hasReply` models whether the triggering event is a reply to another
message; `replySerialized` is `str(event.reply.message)`, the serialized
replied-to content.  The structure mirrors `handle_sendmessage` with the
`job_forward_` id prefix and the serialized reply as the stored content. -/
def handle_forwardmessage (hasReply : Bool) (replySerialized ts : List Char)
    (tg : Nat) (sendResult : Option Nat) (fs : QueueFile) (sch : Sched) :
    Outcome :=
  if !hasReply then ⟨fs, sch, [.mustReplyToForward]⟩
  else if ts = zeroTs then
    match sendResult with
    | some mid => ⟨fs, sch, [.forwardedOk tg mid]⟩
    | none => ⟨fs, sch, [.forwardFailed tg]⟩
  else if pyIsDigit ts then
    match sendParseTs ts with
    | none => ⟨fs, sch, [.invalidTimestampFormat]⟩
    | some t =>
      let jid := mkJobId true t tg
      match addJob sch ⟨jid, t, forwardKind, replySerialized, tg, jid⟩ with
      | .error _ => ⟨fs, sch, [.forwardScheduleFailed]⟩
      | .ok sch' =>
        ⟨save_to_queue jid ⟨t, forwardKind, replySerialized, tg⟩ fs, sch',
          [.forwardScheduledOk t jid]⟩
  else ⟨fs, sch, []⟩

/-- Embedding of the `schedulemessage` branch (source lines 518-590).  A
missing file is reported as an empty queue; a file that fails JSON parsing
produces the `couldNotReadQueue` reply to the chat user; a non-object
parse reaches the truthiness test `if not queue`, reporting an empty queue
when the value is falsy and crashing on the later attribute access when it
is not.  With an object, the three filters are applied conjunctively; the
content filter's compiled regex is an opaque predicate parameter
(`none` models `re.compile` raising `re.error`). -/
def handle_schedulemessage (ts contentFilter tgStr : List Char)
    (contentRegex : Option (List Char → Bool)) (fs : QueueFile)
    (sch : Sched) : Outcome :=
  match fs with
  | .missing => ⟨fs, sch, [.queueEmpty]⟩
  | .invalidJson => ⟨fs, sch, [.couldNotReadQueue]⟩
  | .nonObject falsy =>
    if falsy then ⟨fs, sch, [.queueEmpty]⟩ else ⟨fs, sch, [.crash]⟩
  | .obj es =>
    if es = [] then ⟨fs, sch, [.queueEmpty]⟩
    else
      let es1 :=
        if ts = [] then es
        else
          match sendParseTs ts with
          | some ft => es.filter (fun p => p.2.timestamp == ft)
          | none => es
      if contentFilter ≠ [] ∧ contentRegex.isNone then
        ⟨fs, sch, [.invalidContentRegex]⟩
      else
        let es2 :=
          if contentFilter = [] then es1
          else
            match contentRegex with
            | some pred => es1.filter (fun p => pred p.2.content)
            | none => es1
        let es3 :=
          if tgStr ≠ [] ∧ pyIsDigit tgStr then
            es2.filter (fun p => p.2.target_group == digitsVal tgStr)
          else es2
        if es3 = [] then ⟨fs, sch, [.noTasksMatch]⟩
        else ⟨fs, sch, [.taskList es3]⟩

/-- Embedding of the `cancelmessage` branch (source lines 592-605).  A
timestamp other than the literal `"-1"` is a terminal rejection.
Otherwise `scheduler.remove_job` runs first and raises `JobLookupError`
when no registration with that id exists; the shared `except` then sends
a failure reply, and in that case `remove_from_queue` — which comes after
`remove_job` inside the `try` — never runs. -/
def handle_cancelmessage (ts jid : List Char) (fs : QueueFile)
    (sch : Sched) : Outcome :=
  if ts ≠ minusOneTs then ⟨fs, sch, [.cancelNeedsMinus1]⟩
  else if (sch : List Registration).any (fun q => q.id == jid) then
    ⟨remove_from_queue jid fs,
      (sch : List Registration).filter (fun q => !(q.id == jid)),
      [.cancelOk jid]⟩
  else ⟨fs, sch, [.cancelFailed jid]⟩

/-! ## Scheduled-task execution and startup reconciliation -/

/-- The outbound payload `execute_scheduled_task` builds: parsed segments
for a `sendmessage` job, the serialized text re-parsed as a platform
message (`Message(content)`) for a `forwardmessage` job. -/
inductive Payload where
  | segs (l : List Seg)
  | raw (s : List Char)
deriving DecidableEq, Repr

/-- The observable transport events of one `execute_scheduled_task` run. -/
inductive ExecEvt where
  | delivered (tg : Nat) (m : Payload) (msgId : Nat)
  | deliveryFailed (tg : Nat) (m : Payload)
  | adminConfirmSent (g : Nat)
  | adminConfirmFailed (g : Nat)
deriving DecidableEq, Repr

/-- The outcome of one `execute_scheduled_task` run: the queue file and
scheduler after it, and the transport events, in order.  The source
function contains no `scheduler.add_job` call, so the scheduler state
passes through unchanged by construction. -/
structure ExecOutcome where
  store : QueueFile
  sched : Sched
  events : List ExecEvt
deriving DecidableEq, Repr

/-- Python truthiness of the built outbound message, as tested by
`if message_to_send:` at source line 189.  A `Message` is a list subclass,
so an empty built message is falsy: a `sendmessage` payload is truthy iff
its parsed segment list is non-empty, and a `forwardmessage` payload
`Message(content)` is truthy iff the serialized content is non-empty
(`Message("")` holds no segment, any non-empty string yields at least
one). -/
def Payload.truthy : Payload → Bool
  | .segs l => !l.isEmpty
  | .raw s => !s.isEmpty

/-- Embedding of `execute_scheduled_task` (source lines 168-214), on the
path where a bot instance is available.  `sendResult` models
`bot.send_group_msg` for the job payload (`none`: it raises);
`adminOk g` models whether the best-effort confirmation to admin group `g`
succeeds (its failures are caught by the inner handler and change
nothing).  The send runs only when `if message_to_send:` holds, i.e. the
built payload exists and is truthy.  The queue removal
`remove_from_queue(job_id)` sits inside the `try` after the send, so it
runs when the send succeeds — or when no send was attempted at all
(unknown job type, or a falsy empty message) — but not when the send
raises, in which case the outer handler only logs. -/
def execute_scheduled_task (command_type content : List Char)
    (target_group : Nat) (job_id : List Char) (fs : QueueFile) (sch : Sched)
    (sendResult : Option Nat) (adminGroups : List Nat)
    (adminOk : Nat → Bool) : ExecOutcome :=
  let payload : Option Payload :=
    if command_type = sendKind then
      some (.segs (parse_content_to_message content))
    else if command_type = forwardKind then some (.raw content)
    else none
  match payload with
  | none => ⟨remove_from_queue job_id fs, sch, []⟩
  | some m =>
    if m.truthy then
      match sendResult with
      | none => ⟨fs, sch, [.deliveryFailed target_group m]⟩
      | some mid =>
        let evts :=
          ExecEvt.delivered target_group m mid ::
            adminGroups.map (fun g =>
              if adminOk g then ExecEvt.adminConfirmSent g
              else ExecEvt.adminConfirmFailed g)
        ⟨remove_from_queue job_id fs, sch, evts⟩
    else ⟨remove_from_queue job_id fs, sch, []⟩

/-- Embedding of `on_startup` (source lines 133-166): load the queue file,
recovering a missing, unparseable or non-object file as the empty mapping,
and register every job whose stored timestamp is strictly in the future
with the scheduler, passing the stored type, content, target group and the
job id as the callback arguments.  The loop performs no store write, so
the queue file is returned unchanged.  An `add_job` conflict would escape
the `except json.JSONDecodeError` handler, modelled by the `Except`
propagation of the fold. -/
def on_startup (fs : QueueFile) (now : DT) (sch : Sched) :
    Except Unit Sched × QueueFile :=
  (( loadAll fs).foldlM
      (fun s (p : List Char × JobRecord) =>
        if now.key < p.2.timestamp.key then
          addJob s ⟨p.1, p.2.timestamp, p.2.type, p.2.content,
            p.2.target_group, p.1⟩
        else (.ok s : Except Unit Sched))
      sch,
    fs)

/-- The continuation of a scheduling branch after the timestamp has been
parsed (or failed to): register with the scheduler, then persist; used to
state how the length dispatch reduces to the two `strptime` formats. -/
def schedContinue (o : Option DT) (content : List Char) (tg : Nat)
    (fs : QueueFile) (sch : Sched) : Outcome :=
  match o with
  | none => ⟨fs, sch, [.invalidTimestampFormat]⟩
  | some t =>
    let jid := mkJobId false t tg
    match addJob sch ⟨jid, t, sendKind, content, tg, jid⟩ with
    | .error _ => ⟨fs, sch, [.scheduleFailed]⟩
    | .ok sch' =>
      ⟨save_to_queue jid ⟨t, sendKind, content, tg⟩ fs, sch',
        [.scheduledOk t jid]⟩

/-- The registrations `on_startup` creates from a queue: one per job whose
stored timestamp is strictly after `now`, with the stored fields as the
callback arguments. -/
def futureRegs (now : DT) (es : List (List Char × JobRecord)) :
    List Registration :=
  (es.filter (fun p => now.key < p.2.timestamp.key)).map
    (fun p =>
      ⟨p.1, p.2.timestamp, p.2.type, p.2.content, p.2.target_group, p.1⟩)

/-! ## Store lemmas -/

theorem lookupKey_dictSet_replace {V : Type} (es : List (List Char × V))
    (k : List Char) (v : V) (h : es.any (fun p => p.1 == k) = true) :
    lookupKey (es.map (fun p => if p.1 = k then (k, v) else p)) k = some v := by
  induction es with
  | nil => simp at h
  | cons p rest ih =>
    by_cases hp : p.1 = k
    · simp [lookupKey, hp]
    · simp only [List.any_cons, Bool.or_eq_true, beq_iff_eq] at h
      rcases h with h | h
      · exact absurd h hp
      · simp [lookupKey, hp, ih h]

theorem lookupKey_append_self {V : Type} (es : List (List Char × V))
    (k : List Char) (v : V) (h : es.any (fun p => p.1 == k) = false) :
    lookupKey (es ++ [(k, v)]) k = some v := by
  induction es with
  | nil => simp [lookupKey]
  | cons p rest ih =>
    simp only [List.any_cons, Bool.or_eq_false_iff, beq_eq_false_iff_ne,
      ne_eq] at h
    simpa [lookupKey, h.1] using ih h.2

theorem lookupKey_dictSet {V : Type} (es : List (List Char × V))
    (k : List Char) (v : V) : lookupKey (dictSet es k v) k = some v := by
  unfold dictSet
  by_cases h : es.any (fun p => p.1 == k) = true
  · simp only [h, if_true]
    exact lookupKey_dictSet_replace es k v h
  · simp only [Bool.not_eq_true] at h
    simp only [h, Bool.false_eq_true, if_false]
    exact lookupKey_append_self es k v h

theorem dictRemove_no_key {V : Type} (es : List (List Char × V))
    (k : List Char) :
    (dictRemove es k).any (fun p => p.1 == k) = false := by
  simp only [dictRemove, Bool.not_eq_true, List.any_eq_false]
  intro p hp
  simp only [List.mem_filter, Bool.not_eq_eq_eq_not, Bool.not_true,
    beq_eq_false_iff_ne, ne_eq] at hp
  simpa using hp.2

/-! ## Claim theorems -/

/-- Claim C7: for every jobId and job record, `save_to_queue` on any prior
store state followed by `loadAll` yields a mapping containing that jobId
bound to the record with all its fields preserved exactly. -/
theorem c7_upsert_roundtrip (jid : List Char) (job : JobRecord)
    (fs : QueueFile) :
    lookupKey (loadAll (save_to_queue jid job fs)) jid = some job := by
  show lookupKey (dictSet (loadAll fs) jid job) jid = some job
  exact lookupKey_dictSet (loadAll fs) jid job

/-- Claim C8: for every jobId and every store state, removing it twice
leaves the store exactly as removing it once: the second call changes no
state (and, in the model, no error path exists for it). -/
theorem c8_remove_idempotent (jid : List Char) (fs : QueueFile) :
    remove_from_queue jid (remove_from_queue jid fs)
      = remove_from_queue jid fs := by
  cases fs with
  | missing => rfl
  | invalidJson => rfl
  | nonObject b => rfl
  | obj es =>
    by_cases h : es.any (fun p => p.1 == jid) = true
    · simp [remove_from_queue, h, dictRemove_no_key]
    · simp only [Bool.not_eq_true] at h
      simp [remove_from_queue, h]

/-- Claim C3 counterexample: with a backing file whose content fails to
parse as JSON, the list-schedule command replies "Could not read the
schedule queue." to the chat user — the corruption is surfaced in a reply
rather than recovered as an empty mapping. -/
theorem c3_counterexample :
    (handle_schedulemessage [] [] [] none .invalidJson []).replies
        = [Reply.couldNotReadQueue]
      ∧ Reply.couldNotReadQueue ≠ Reply.queueEmpty := by
  exact ⟨rfl, by decide⟩

/-- Claim C3 (amended): the startup load, `save_to_queue` and
`remove_from_queue` recover a missing, unreadable or non-object backing
file by treating the store as empty (and `on_startup` then registers
nothing), but the list-schedule command does surface a parse failure to
the chat user with a distinct "could not read" reply, while reporting a
missing file as an empty queue. -/
theorem c3_amended_recovery (b : Bool) (now : DT) (sch : Sched)
    (ts c tg : List Char) (r : Option (List Char → Bool)) :
    loadAll .missing = [] ∧ loadAll .invalidJson = []
      ∧ loadAll (.nonObject b) = []
      ∧ (on_startup .invalidJson now sch).1 = .ok sch
      ∧ (handle_schedulemessage ts c tg r .missing sch).replies
          = [Reply.queueEmpty]
      ∧ (handle_schedulemessage ts c tg r .invalidJson sch).replies
          = [Reply.couldNotReadQueue] := by
  refine ⟨rfl, rfl, ?_, rfl, rfl, rfl⟩
  cases b <;> rfl

/-- Claim C1 counterexample: a scheduled `sendmessage` job with non-empty
content whose delivery raises is not removed from the queue file — the
store still holds the job record after execution, refuting removal
"regardless of delivery success or failure". -/
theorem c1_counterexample :
    (execute_scheduled_task sendKind ['h', 'i'] 5 ['j']
        (.obj [(['j'], ⟨⟨2025, 1, 1, 0, 0, 0⟩, sendKind, ['h', 'i'], 5⟩)])
        [] none [] (fun _ => true)).store
      = .obj [(['j'], ⟨⟨2025, 1, 1, 0, 0, 0⟩, sendKind, ['h', 'i'], 5⟩)]
    := by
  rfl

/-- Claim C1 (amended): a scheduled job is removed from the store exactly
once when delivery succeeds — and also when no send is attempted at all
(a falsy empty built message skips the `if message_to_send:` body and
falls through to the removal); when a delivery attempt fails (which
requires the built message to be truthy, i.e. non-empty) the job is not
removed, because the removal sits after the send inside the `try`.  In
every case the outcome is terminal — nothing is retried and no scheduler
registration is added. -/
theorem c1_amended_removal (content : List Char) (tg : Nat)
    (jid : List Char) (fs : QueueFile) (sch : Sched) (mid : Nat)
    (ag : List Nat) (aok : Nat → Bool) :
    ((execute_scheduled_task sendKind content tg jid fs sch (some mid)
        ag aok).store = remove_from_queue jid fs
      ∧ (execute_scheduled_task sendKind content tg jid fs sch (some mid)
          ag aok).sched = sch)
    ∧ (parse_content_to_message content ≠ [] →
        (execute_scheduled_task sendKind content tg jid fs sch none
            ag aok).store = fs
          ∧ (execute_scheduled_task sendKind content tg jid fs sch none
              ag aok).sched = sch)
    ∧ ((execute_scheduled_task forwardKind content tg jid fs sch (some mid)
        ag aok).store = remove_from_queue jid fs
      ∧ (execute_scheduled_task forwardKind content tg jid fs sch (some mid)
          ag aok).sched = sch)
    ∧ (content ≠ [] →
        (execute_scheduled_task forwardKind content tg jid fs sch none
            ag aok).store = fs
          ∧ (execute_scheduled_task forwardKind content tg jid fs sch none
              ag aok).sched = sch) := by
  refine ⟨⟨?_, ?_⟩, fun h => ⟨?_, ?_⟩, ⟨?_, ?_⟩, fun h => ⟨?_, ?_⟩⟩
  · simp +decide only [execute_scheduled_task]
    split
    · rfl
    · split <;> rfl
  · simp +decide only [execute_scheduled_task]
    split
    · rfl
    · split <;> rfl
  · cases hp : parse_content_to_message content with
    | nil => exact absurd hp h
    | cons a l => simp +decide [execute_scheduled_task, hp, Payload.truthy]
  · cases hp : parse_content_to_message content with
    | nil => exact absurd hp h
    | cons a l => simp +decide [execute_scheduled_task, hp, Payload.truthy]
  · simp +decide only [execute_scheduled_task]
    split
    · rfl
    · split <;> rfl
  · simp +decide only [execute_scheduled_task]
    split
    · rfl
    · split <;> rfl
  · cases content with
    | nil => exact absurd rfl h
    | cons c l => simp +decide [execute_scheduled_task, Payload.truthy]
  · cases content with
    | nil => exact absurd rfl h
    | cons c l => simp +decide [execute_scheduled_task, Payload.truthy]

/-- Witness for `c1_amended_removal`: non-empty content, so the delivery
is attempted; its failure leaves the store untouched. -/
theorem c1_amended_removal_witness :
    parse_content_to_message ['h', 'i'] ≠ []
      ∧ (['h', 'i'] : List Char) ≠ []
      ∧ (execute_scheduled_task sendKind ['h', 'i'] 5 ['j'] .missing []
          none [] (fun _ => true)).store = .missing :=
  ⟨by decide, by decide,
    ((c1_amended_removal ['h', 'i'] 5 ['j'] .missing [] 7 []
        (fun _ => true)).2.1 (by decide)).1⟩

/-- Claim C2 counterexample: a cancel request with timestamp `"-1"` whose
jobId has no live scheduler registration leaves the job record in the
store (the store removal is skipped) and replies with a cancel failure. -/
theorem c2_counterexample :
    (handle_cancelmessage minusOneTs ['j']
          (.obj [(['j'], ⟨⟨2025, 1, 1, 0, 0, 0⟩, sendKind, [], 5⟩)])
          []).store
        = .obj [(['j'], ⟨⟨2025, 1, 1, 0, 0, 0⟩, sendKind, [], 5⟩)]
      ∧ (handle_cancelmessage minusOneTs ['j']
          (.obj [(['j'], ⟨⟨2025, 1, 1, 0, 0, 0⟩, sendKind, [], 5⟩)])
          []).replies = [Reply.cancelFailed ['j']] := by
  exact ⟨rfl, rfl⟩

/-- Claim C2 (amended): for a cancel request with timestamp `"-1"`, when
the scheduler has no registration for the jobId, `scheduler.remove_job`
raises and the handler's shared `except` aborts the branch: the store
removal is not performed, the scheduler is unchanged, and a failure reply
is sent. -/
theorem c2_amended_cancel (jid : List Char) (fs : QueueFile) (sch : Sched)
    (h : sch.any (fun q => q.id == jid) = false) :
    handle_cancelmessage minusOneTs jid fs sch
      = ⟨fs, sch, [Reply.cancelFailed jid]⟩ := by
  simp [handle_cancelmessage, h]

/-- Witness for `c2_amended_cancel` at a concrete input. -/
theorem c2_amended_cancel_witness :
    ([] : Sched).any (fun q => q.id == (['j'] : List Char)) = false
      ∧ handle_cancelmessage minusOneTs ['j']
          (.obj [(['j'], ⟨⟨2025, 1, 1, 0, 0, 0⟩, sendKind, [], 5⟩)]) []
        = ⟨.obj [(['j'], ⟨⟨2025, 1, 1, 0, 0, 0⟩, sendKind, [], 5⟩)], [],
            [Reply.cancelFailed ['j']]⟩ :=
  ⟨rfl, c2_amended_cancel ['j'] _ [] rfl⟩

/-- Claim C10: a `sendmessage` or `forwardmessage` command (the latter
with a replied-to message present) whose timestamp field is neither the
literal "0" nor all digits falls through the `if`/`elif` chain silently:
no reply is sent, nothing is scheduled, and the store is unchanged. -/
theorem c10_silent_fallthrough (ts content rc : List Char) (tg : Nat)
    (sr sr' : Option Nat) (fs : QueueFile) (sch : Sched)
    (h0 : ts ≠ zeroTs) (hd : pyIsDigit ts = false) :
    handle_sendmessage ts content tg sr fs sch = ⟨fs, sch, []⟩
      ∧ handle_forwardmessage true rc ts tg sr' fs sch = ⟨fs, sch, []⟩ := by
  constructor <;> simp [handle_sendmessage, handle_forwardmessage, h0, hd]

/-- Witness for `c10_silent_fallthrough` at the timestamp field "-1". -/
theorem c10_silent_fallthrough_witness :
    (minusOneTs ≠ zeroTs) ∧ pyIsDigit minusOneTs = false
      ∧ handle_sendmessage minusOneTs ['h', 'i'] 5 none .missing []
          = ⟨.missing, [], []⟩ :=
  ⟨by decide, by decide,
    (c10_silent_fallthrough minusOneTs ['h', 'i'] [] 5 none none .missing []
      (by decide) (by decide)).1⟩

/-- Claim C6: for a `sendmessage` command whose timestamp field is all
digits and not "0", a 12-digit field is handled exactly as the
`YYYYMMDDHHMM` parse, a 14-digit field exactly as the `YYYYMMDDHHMMSS`
parse, and any other digit length yields the terminal timestamp-format
error reply with nothing scheduled and the store untouched. -/
theorem c6_timestamp_dispatch (ts content : List Char) (tg : Nat)
    (sr : Option Nat) (fs : QueueFile) (sch : Sched)
    (hd : pyIsDigit ts = true) (h0 : ts ≠ zeroTs) :
    (ts.length = 12 →
        handle_sendmessage ts content tg sr fs sch
          = schedContinue (strptime12 ts) content tg fs sch)
      ∧ (ts.length = 14 →
          handle_sendmessage ts content tg sr fs sch
            = schedContinue (strptime14 ts) content tg fs sch)
      ∧ (ts.length ≠ 12 → ts.length ≠ 14 →
          handle_sendmessage ts content tg sr fs sch
            = ⟨fs, sch, [Reply.invalidTimestampFormat]⟩) := by
  refine ⟨?_, ?_, ?_⟩
  · intro h12
    have h14 : ts.length ≠ 14 := by omega
    simp [handle_sendmessage, sendParseTs, schedContinue, h0, hd, h12, h14]
  · intro h14
    simp [handle_sendmessage, sendParseTs, schedContinue, h0, hd, h14]
  · intro h12 h14
    simp [handle_sendmessage, sendParseTs, h0, hd, h12, h14]

/-- Witness for `c6_timestamp_dispatch` at the 12-digit timestamp
"202509201200". -/
theorem c6_timestamp_dispatch_witness :
    pyIsDigit ['2', '0', '2', '5', '0', '9', '2', '0', '1', '2', '0', '0']
        = true
      ∧ (['2', '0', '2', '5', '0', '9', '2', '0', '1', '2', '0', '0']
          : List Char) ≠ zeroTs
      ∧ handle_sendmessage
          ['2', '0', '2', '5', '0', '9', '2', '0', '1', '2', '0', '0']
          ['h', 'i'] 5 none .missing []
        = schedContinue
            (strptime12
              ['2', '0', '2', '5', '0', '9', '2', '0', '1', '2', '0', '0'])
            ['h', 'i'] 5 .missing [] :=
  ⟨by decide, by decide,
    (c6_timestamp_dispatch
        ['2', '0', '2', '5', '0', '9', '2', '0', '1', '2', '0', '0']
        ['h', 'i'] 5 none .missing [] (by decide) (by decide)).1 rfl⟩

/-- Claim C9: in both scheduling branches the scheduler registration is
attempted before the job is persisted; when `add_job` raises (a jobId
already registered), the handler replies with the failure and the backing
queue file is left unchanged — no job record is written. -/
theorem c9_register_before_persist (ts content rc : List Char) (tg : Nat)
    (sr sr' : Option Nat) (fs : QueueFile) (sch : Sched) (t : DT)
    (hp : sendParseTs ts = some t) (h0 : ts ≠ zeroTs)
    (hd : pyIsDigit ts = true) :
    (sch.any (fun q => q.id == mkJobId false t tg) = true →
        handle_sendmessage ts content tg sr fs sch
          = ⟨fs, sch, [Reply.scheduleFailed]⟩)
      ∧ (sch.any (fun q => q.id == mkJobId true t tg) = true →
          handle_forwardmessage true rc ts tg sr' fs sch
            = ⟨fs, sch, [Reply.forwardScheduleFailed]⟩) := by
  constructor
  · intro hin
    simp [handle_sendmessage, h0, hd, hp, addJob, hin]
  · intro hin
    simp [handle_forwardmessage, h0, hd, hp, addJob, hin]

/-- Witness for `c9_register_before_persist`: a duplicate jobId makes the
send branch fail without touching the store. -/
theorem c9_register_before_persist_witness :
    sendParseTs ['2', '0', '2', '5', '0', '9', '2', '0', '1', '2', '0', '0']
        = some ⟨2025, 9, 20, 12, 0, 0⟩
      ∧ ([⟨mkJobId false ⟨2025, 9, 20, 12, 0, 0⟩ 5, ⟨2025, 9, 20, 12, 0, 0⟩,
            sendKind, [], 5, []⟩] : Sched).any
          (fun q => q.id == mkJobId false ⟨2025, 9, 20, 12, 0, 0⟩ 5) = true
      ∧ handle_sendmessage
          ['2', '0', '2', '5', '0', '9', '2', '0', '1', '2', '0', '0']
          ['h', 'i'] 5 none (.obj [])
          [⟨mkJobId false ⟨2025, 9, 20, 12, 0, 0⟩ 5, ⟨2025, 9, 20, 12, 0, 0⟩,
            sendKind, [], 5, []⟩]
        = ⟨.obj [],
            [⟨mkJobId false ⟨2025, 9, 20, 12, 0, 0⟩ 5,
              ⟨2025, 9, 20, 12, 0, 0⟩, sendKind, [], 5, []⟩],
            [Reply.scheduleFailed]⟩ :=
  ⟨by decide, by decide,
    (c9_register_before_persist
        ['2', '0', '2', '5', '0', '9', '2', '0', '1', '2', '0', '0']
        ['h', 'i'] [] 5 none none (.obj [])
        [⟨mkJobId false ⟨2025, 9, 20, 12, 0, 0⟩ 5, ⟨2025, 9, 20, 12, 0, 0⟩,
          sendKind, [], 5, []⟩]
        ⟨2025, 9, 20, 12, 0, 0⟩ (by decide) (by decide) (by decide)).1
      (by decide)⟩

theorem except_bind_ok {ε α β : Type} (x : α) (f : α → Except ε β) :
    ((Except.ok x : Except ε α) >>= f) = f x := rfl

theorem assoc_nodup_unique {V : Type} :
    ∀ {es : List (List Char × V)} {k : List Char} {a b : V},
      (es.map Prod.fst).Nodup → (k, a) ∈ es → (k, b) ∈ es → a = b := by
  intro es
  induction es with
  | nil => intro k a b _ ha; simp at ha
  | cons p rest ih =>
    intro k a b hnd ha hb
    simp only [List.map_cons, List.nodup_cons] at hnd
    rcases List.mem_cons.mp ha with ha | ha <;>
      rcases List.mem_cons.mp hb with hb | hb
    · exact congrArg Prod.snd (ha.trans hb.symm)
    · exfalso
      apply hnd.1
      rw [show p.1 = k from congrArg Prod.fst ha.symm]
      exact List.mem_map.mpr ⟨(k, b), hb, rfl⟩
    · exfalso
      apply hnd.1
      rw [show p.1 = k from congrArg Prod.fst hb.symm]
      exact List.mem_map.mpr ⟨(k, a), ha, rfl⟩
    · exact ih hnd.2 ha hb
theorem on_startup_fold (now : DT) :
    ∀ (es : List (List Char × JobRecord)) (sch : Sched),
      (∀ p ∈ es, ∀ q ∈ sch, ¬ q.id = p.1) → (es.map Prod.fst).Nodup →
      (on_startup (.obj es) now sch).1 = .ok (sch ++ futureRegs now es) := by
  intro es
  induction es with
  | nil =>
    intro sch _ _
    simp only [on_startup, loadAll, List.foldlM_nil, futureRegs,
      List.filter_nil, List.map_nil, List.append_nil]
    rfl
  | cons p rest ih =>
    intro sch hdis hnd
    simp only [List.map_cons, List.nodup_cons] at hnd
    have hnotin : sch.any (fun q => q.id == p.1) = false := by
      rw [List.any_eq_false]
      intro q hq
      simp only [beq_iff_eq]
      exact hdis p (List.mem_cons_self p rest) q hq
    by_cases hf : now.key < p.2.timestamp.key
    · have hstep :
          addJob sch ⟨p.1, p.2.timestamp, p.2.type, p.2.content,
            p.2.target_group, p.1⟩ = .ok (sch ++
              [⟨p.1, p.2.timestamp, p.2.type, p.2.content,
                p.2.target_group, p.1⟩]) := by
        simp [addJob, hnotin]
      have hdis' : ∀ p' ∈ rest,
          ∀ q ∈ sch ++ [(⟨p.1, p.2.timestamp, p.2.type, p.2.content,
            p.2.target_group, p.1⟩ : Registration)], ¬ q.id = p'.1 := by
        intro p' hp' q hq
        rcases List.mem_append.mp hq with hq | hq
        · exact hdis p' (List.mem_cons_of_mem p hp') q hq
        · simp only [List.mem_singleton] at hq
          subst hq
          intro hid
          have hid' : p.1 = p'.1 := hid
          exact hnd.1 (by
            rw [hid']
            exact List.mem_map.mpr ⟨p', hp', rfl⟩)
      have hfr : futureRegs now (p :: rest)
          = (⟨p.1, p.2.timestamp, p.2.type, p.2.content,
              p.2.target_group, p.1⟩ : Registration)
            :: futureRegs now rest := by
        simp only [futureRegs]
        rw [List.filter_cons_of_pos (by simpa using hf), List.map_cons]
      have hrec := ih (sch ++
        [⟨p.1, p.2.timestamp, p.2.type, p.2.content,
          p.2.target_group, p.1⟩]) hdis' hnd.2
      simp only [on_startup, loadAll] at hrec
      simp only [on_startup, loadAll, List.foldlM_cons, if_pos hf, hstep,
        except_bind_ok, hfr]
      rw [hrec, List.append_assoc]
      rfl
    · have hfr : futureRegs now (p :: rest) = futureRegs now rest := by
        simp only [futureRegs]
        rw [List.filter_cons_of_neg (by simpa using hf)]
      have hrec := ih sch
        (fun p' hp' q hq => hdis p' (List.mem_cons_of_mem p hp') q hq) hnd.2
      simp only [on_startup, loadAll] at hrec
      simp only [on_startup, loadAll, List.foldlM_cons, if_neg hf,
        except_bind_ok, hfr]
      exact hrec

/-- Claim C4: at startup reconciliation, every persisted job with a
strictly future timestamp is registered with the scheduler under its jobId
with the stored type, content, target group and jobId as the callback
arguments; a job whose timestamp is not strictly in the future is not
registered; and the store itself is left untouched. -/
theorem c4_startup_registers_future (es : List (List Char × JobRecord))
    (now : DT) (hnd : (es.map Prod.fst).Nodup) :
    (on_startup (.obj es) now []).1 = .ok (futureRegs now es)
      ∧ (on_startup (.obj es) now []).2 = .obj es
      ∧ ∀ jid info, (jid, info) ∈ es →
          ((now.key < info.timestamp.key →
              (⟨jid, info.timestamp, info.type, info.content,
                info.target_group, jid⟩ : Registration)
                ∈ futureRegs now es)
            ∧ (¬ now.key < info.timestamp.key →
                ∀ q ∈ futureRegs now es, ¬ q.id = jid)) := by
  refine ⟨?_, rfl, ?_⟩
  · simpa using on_startup_fold now es [] (by simp) hnd
  · intro jid info hmem
    constructor
    · intro hf
      simp only [futureRegs, List.mem_map, List.mem_filter]
      exact ⟨(jid, info), ⟨hmem, by simpa using hf⟩, rfl⟩
    · intro hpast q hq hid
      simp only [futureRegs, List.mem_map, List.mem_filter] at hq
      rcases hq with ⟨p, ⟨hpmem, hpfut⟩, rfl⟩
      have hid' : p.1 = jid := hid
      have hpmem' : (jid, p.2) ∈ es := by
        rw [← hid']
        simpa using hpmem
      have heq : p.2 = info := assoc_nodup_unique hnd hpmem' hmem
      rw [heq] at hpfut
      exact hpast (by simpa using hpfut)

/-- Witness for `c4_startup_registers_future`: one future job (registered)
and one past job (not registered). -/
theorem c4_startup_registers_future_witness :
    (([(['a'], (⟨⟨2025, 9, 20, 12, 0, 0⟩, sendKind, ['x'], 5⟩ : JobRecord)),
        (['b'], (⟨⟨2020, 1, 1, 0, 0, 0⟩, sendKind, ['y'], 5⟩ : JobRecord))]
          : List (List Char × JobRecord)).map Prod.fst).Nodup
      ∧ ((on_startup
            (.obj [(['a'], ⟨⟨2025, 9, 20, 12, 0, 0⟩, sendKind, ['x'], 5⟩),
              (['b'], ⟨⟨2020, 1, 1, 0, 0, 0⟩, sendKind, ['y'], 5⟩)])
            ⟨2024, 1, 1, 0, 0, 0⟩ []).1
          = .ok (futureRegs ⟨2024, 1, 1, 0, 0, 0⟩
              [(['a'], ⟨⟨2025, 9, 20, 12, 0, 0⟩, sendKind, ['x'], 5⟩),
                (['b'], ⟨⟨2020, 1, 1, 0, 0, 0⟩, sendKind, ['y'], 5⟩)])
          ∧ (on_startup
              (.obj [(['a'], ⟨⟨2025, 9, 20, 12, 0, 0⟩, sendKind, ['x'], 5⟩),
                (['b'], ⟨⟨2020, 1, 1, 0, 0, 0⟩, sendKind, ['y'], 5⟩)])
              ⟨2024, 1, 1, 0, 0, 0⟩ []).2
            = .obj [(['a'], ⟨⟨2025, 9, 20, 12, 0, 0⟩, sendKind, ['x'], 5⟩),
                (['b'], ⟨⟨2020, 1, 1, 0, 0, 0⟩, sendKind, ['y'], 5⟩)]
          ∧ ∀ jid info,
              (jid, info) ∈
                [(['a'],
                    (⟨⟨2025, 9, 20, 12, 0, 0⟩, sendKind, ['x'], 5⟩
                      : JobRecord)),
                  (['b'], ⟨⟨2020, 1, 1, 0, 0, 0⟩, sendKind, ['y'], 5⟩)] →
              (((⟨2024, 1, 1, 0, 0, 0⟩ : DT).key < info.timestamp.key →
                  (⟨jid, info.timestamp, info.type, info.content,
                    info.target_group, jid⟩ : Registration)
                    ∈ futureRegs ⟨2024, 1, 1, 0, 0, 0⟩
                        [(['a'],
                            ⟨⟨2025, 9, 20, 12, 0, 0⟩, sendKind, ['x'], 5⟩),
                          (['b'],
                            ⟨⟨2020, 1, 1, 0, 0, 0⟩, sendKind, ['y'], 5⟩)])
                ∧ (¬ (⟨2024, 1, 1, 0, 0, 0⟩ : DT).key < info.timestamp.key →
                    ∀ q ∈ futureRegs ⟨2024, 1, 1, 0, 0, 0⟩
                        [(['a'],
                            ⟨⟨2025, 9, 20, 12, 0, 0⟩, sendKind, ['x'], 5⟩),
                          (['b'],
                            ⟨⟨2020, 1, 1, 0, 0, 0⟩, sendKind, ['y'], 5⟩)],
                      ¬ q.id = jid))) :=
  ⟨by decide,
    c4_startup_registers_future
      [(['a'], ⟨⟨2025, 9, 20, 12, 0, 0⟩, sendKind, ['x'], 5⟩),
        (['b'], ⟨⟨2020, 1, 1, 0, 0, 0⟩, sendKind, ['y'], 5⟩)]
      ⟨2024, 1, 1, 0, 0, 0⟩ (by decide)⟩

/-! ## Content-markup parser lemmas -/

theorem leadsWith_iff : ∀ (p s : List Char),
    leadsWith p s = true ↔ ∃ r, s = p ++ r := by
  intro p
  induction p with
  | nil => intro s; simp [leadsWith]
  | cons a as ih =>
    intro s
    cases s with
    | nil => simp [leadsWith]
    | cons b bs =>
      simp only [leadsWith, Bool.and_eq_true, beq_iff_eq, ih,
        List.cons_append, List.cons.injEq]
      constructor
      · rintro ⟨rfl, r, rfl⟩
        exact ⟨r, rfl, rfl⟩
      · rintro ⟨r, rfl, rfl⟩
        exact ⟨rfl, r, rfl⟩

theorem findImgClose_decomp : ∀ (x u r : List Char),
    findImgClose x = some (u, r) →
    x = u ++ imgClose ++ r ∧ ∀ c ∈ u, c ≠ '\n' := by
  intro x
  induction x with
  | nil => intro u r h; simp [findImgClose] at h
  | cons c rest ih =>
    intro u r h
    by_cases h1 : leadsWith imgClose (c :: rest) = true
    · simp only [findImgClose, h1, if_true, Option.some.injEq,
        Prod.mk.injEq] at h
      obtain ⟨r0, hr0⟩ := (leadsWith_iff imgClose (c :: rest)).mp h1
      obtain ⟨hu, hr⟩ := h
      subst hu
      have hdrop : (c :: rest).drop 3 = r0 := by
        rw [hr0]
        exact List.drop_left imgClose r0
      rw [← hr, hdrop, hr0]
      exact ⟨rfl, by simp⟩
    · by_cases h2 : c = '\n'
      · subst h2
        simp [findImgClose, h1] at h
      · cases hfc : findImgClose rest with
        | none => simp [findImgClose, h1, h2, hfc] at h
        | some p =>
          obtain ⟨u', r'⟩ := p
          have hcomp : findImgClose (c :: rest) = some (c :: u', r') := by
            rw [show findImgClose (c :: rest)
                = if leadsWith imgClose (c :: rest) = true then
                    some ([], (c :: rest).drop 3)
                  else if c = '\n' then none
                  else (findImgClose rest).map (fun p => (c :: p.1, p.2))
                from rfl,
              if_neg h1, if_neg h2, hfc]
            rfl
          have hpair : (c :: u', r') = (u, r) :=
            Option.some.inj (hcomp.symm.trans h)
          have hu : c :: u' = u := congrArg Prod.fst hpair
          have hr : r' = r := congrArg Prod.snd hpair
          obtain ⟨hx, hnl⟩ := ih u' r' hfc
          subst hu hr
          constructor
          · simp [hx, List.cons_append]
          · intro d hd
            rcases List.mem_cons.mp hd with rfl | hd
            · exact h2
            · exact hnl d hd

theorem findImgClose_isSome : ∀ (u z : List Char),
    (∀ c ∈ u, c ≠ '\n') →
    (findImgClose (u ++ (imgClose ++ z))).isSome = true := by
  intro u
  induction u with
  | nil =>
    intro z _
    have h1 : leadsWith imgClose (imgClose ++ z) = true :=
      (leadsWith_iff imgClose (imgClose ++ z)).mpr ⟨z, rfl⟩
    simp only [List.nil_append]
    rw [show imgClose ++ z = '"' :: (')' :: ('\x7d' :: z)) from rfl]
    rw [show imgClose ++ z = '"' :: (')' :: ('\x7d' :: z)) from rfl] at h1
    simp [findImgClose, h1]
  | cons c u' ih =>
    intro z hnl
    have hc : c ≠ '\n' := hnl c (List.mem_cons_self c u')
    have hrec := ih z (fun d hd => hnl d (List.mem_cons_of_mem c hd))
    simp only [List.cons_append]
    by_cases h1 : leadsWith imgClose (c :: (u' ++ (imgClose ++ z))) = true
    · simp [findImgClose, h1]
    · simp [findImgClose, h1, hc, hrec]

theorem matchTagHere_decomp (s t r : List Char)
    (h : matchTagHere s = some (t, r)) :
    s = t ++ r ∧ (t = atAllTag
      ∨ ∃ u, t = imgOpen ++ u ++ imgClose ∧ ∀ c ∈ u, c ≠ '\n') := by
  by_cases h1 : leadsWith atAllTag s = true
  · simp only [matchTagHere, h1, if_true, Option.some.injEq,
      Prod.mk.injEq] at h
    obtain ⟨r0, hr0⟩ := (leadsWith_iff atAllTag s).mp h1
    obtain ⟨ht, hr⟩ := h
    subst ht
    have hdrop : s.drop atAllTag.length = r0 := by
      rw [hr0]
      exact List.drop_left atAllTag r0
    rw [← hr, hdrop]
    exact ⟨hr0, Or.inl rfl⟩
  · by_cases h2 : leadsWith imgOpen s = true
    · obtain ⟨s0, hs0⟩ := (leadsWith_iff imgOpen s).mp h2
      have hdrop : s.drop imgOpen.length = s0 := by
        rw [hs0]
        exact List.drop_left imgOpen s0
      cases hfc : findImgClose (s.drop imgOpen.length) with
      | none => simp [matchTagHere, h1, h2, hfc] at h
      | some p =>
        obtain ⟨url, rem⟩ := p
        have hmm : matchTagHere s = some (imgOpen ++ url ++ imgClose, rem)
            := by
          unfold matchTagHere
          rw [if_neg h1, if_pos h2, hfc]
        have hpair : (imgOpen ++ url ++ imgClose, rem) = (t, r) :=
          Option.some.inj (hmm.symm.trans h)
        have ht : imgOpen ++ url ++ imgClose = t := congrArg Prod.fst hpair
        have hr : rem = r := congrArg Prod.snd hpair
        rw [hdrop] at hfc
        obtain ⟨hx, hnl⟩ := findImgClose_decomp s0 url rem hfc
        constructor
        · rw [hs0, hx, ← ht, ← hr]
          simp [List.append_assoc]
        · exact Or.inr ⟨url, ht.symm, hnl⟩
    · simp [matchTagHere, h1, h2] at h

theorem tag_shape_ne_nil (t : List Char)
    (h : t = atAllTag
      ∨ ∃ u, t = imgOpen ++ u ++ imgClose ∧ ∀ c ∈ u, c ≠ '\n') :
    t ≠ [] := by
  rcases h with rfl | ⟨u, rfl, _⟩
  · decide
  · simp [imgOpen]

theorem tag_shape_no_newline (t : List Char)
    (h : t = atAllTag
      ∨ ∃ u, t = imgOpen ++ u ++ imgClose ∧ ∀ c ∈ u, c ≠ '\n') :
    ∀ c ∈ t, c ≠ '\n' := by
  rcases h with rfl | ⟨u, rfl, hnl⟩
  · decide
  · intro c hc
    simp only [List.append_assoc, List.mem_append] at hc
    rcases hc with hc | hc | hc
    · revert hc
      revert c
      decide
    · exact hnl c hc
    · revert hc
      revert c
      decide

theorem atAll_not_at_imgOpen (w : List Char) :
    leadsWith atAllTag (imgOpen ++ w) = false := rfl

theorem matchTagHere_at_front (t : List Char)
    (h : t = atAllTag
      ∨ ∃ u, t = imgOpen ++ u ++ imgClose ∧ ∀ c ∈ u, c ≠ '\n') :
    ∀ z, (matchTagHere (t ++ z)).isSome = true := by
  intro z
  rcases h with rfl | ⟨u, rfl, hnl⟩
  · have h1 : leadsWith atAllTag (atAllTag ++ z) = true :=
      (leadsWith_iff atAllTag (atAllTag ++ z)).mpr ⟨z, rfl⟩
    simp [matchTagHere, h1]
  · simp only [List.append_assoc]
    have h1 : leadsWith atAllTag (imgOpen ++ (u ++ (imgClose ++ z)))
        = false := atAll_not_at_imgOpen _
    have h2 : leadsWith imgOpen (imgOpen ++ (u ++ (imgClose ++ z)))
        = true := (leadsWith_iff _ _).mpr ⟨u ++ (imgClose ++ z), rfl⟩
    have hdrop : (imgOpen ++ (u ++ (imgClose ++ z))).drop imgOpen.length
        = u ++ (imgClose ++ z) := List.drop_left _ _
    have hsome := findImgClose_isSome u z hnl
    obtain ⟨p, hp⟩ := Option.isSome_iff_exists.mp hsome
    obtain ⟨p1, p2⟩ := p
    unfold matchTagHere
    rw [if_neg (by simp [h1]), if_pos h2, hdrop, hp]
    rfl

theorem hasTag_iff : ∀ (s : List Char),
    hasTag s = true
      ↔ ∃ a b, s = a ++ b ∧ (matchTagHere b).isSome = true := by
  intro s
  induction s with
  | nil =>
    constructor
    · intro h
      simp [hasTag] at h
    · rintro ⟨a, b, hab, hsome⟩
      obtain ⟨ha, hb⟩ := List.append_eq_nil.mp hab.symm
      subst hb
      exact absurd hsome (by decide)
  | cons c rest ih =>
    simp only [hasTag, Bool.or_eq_true]
    constructor
    · rintro (h | h)
      · exact ⟨[], c :: rest, rfl, h⟩
      · obtain ⟨a, b, hab, hsome⟩ := ih.mp h
        exact ⟨c :: a, b, by rw [hab, List.cons_append], hsome⟩
    · rintro ⟨a, b, hab, hsome⟩
      cases a with
      | nil =>
        left
        simp only [List.nil_append] at hab
        rw [hab]
        exact hsome
      | cons x a' =>
        right
        simp only [List.cons_append, List.cons.injEq] at hab
        exact ih.mpr ⟨a', b, hab.2, hsome⟩

theorem replace_prefix : ∀ (p u r : List Char),
    replaceEscape u = p ++ r → (∀ c ∈ p, c ≠ '\n') →
    ∃ r', u = p ++ r' := by
  intro p
  induction p with
  | nil => intro u r _ _; exact ⟨u, rfl⟩
  | cons c p' ih =>
    intro u r h hnl
    have hc : c ≠ '\n' := hnl c (List.mem_cons_self c p')
    rcases u with _ | ⟨d, _ | ⟨b, rest⟩⟩
    · simp [replaceEscape] at h
    · simp only [replaceEscape, List.cons_append, List.cons.injEq] at h
      obtain ⟨rfl, h2⟩ := h
      obtain ⟨hp', hr⟩ := List.append_eq_nil.mp h2.symm
      subst hp'
      exact ⟨[], rfl⟩
    · by_cases hcond : d = '\\' ∧ b = 'n'
      · obtain ⟨rfl, rfl⟩ := hcond
        rw [show replaceEscape ('\\' :: 'n' :: rest)
            = '\n' :: replaceEscape rest from rfl] at h
        rw [List.cons_append] at h
        injection h with h1 h2
        exact absurd h1.symm hc
      · simp only [replaceEscape, if_neg hcond, List.cons_append,
          List.cons.injEq] at h
        obtain ⟨rfl, h2⟩ := h
        obtain ⟨r', hr'⟩ := ih (b :: rest) r h2
          (fun e he => hnl e (List.mem_cons_of_mem _ he))
        exact ⟨r', by rw [List.cons_append, ← hr']⟩

theorem occ_transfer (u : List Char) : ∀ (a t r : List Char),
    replaceEscape u = a ++ (t ++ r) → (∀ c ∈ t, c ≠ '\n') → t ≠ [] →
    ∃ a' r', u = a' ++ (t ++ r') := by
  induction u using replaceEscape.induct with
  | case1 =>
    intro a t r h hnl tne
    simp only [replaceEscape, List.nil_eq, List.append_eq_nil] at h
    exact absurd h.2.1 tne
  | case2 c =>
    intro a t r h hnl tne
    rcases a with _ | ⟨x, a'⟩
    · rcases t with _ | ⟨y, t'⟩
      · exact absurd rfl tne
      · simp only [replaceEscape, List.nil_append, List.cons_append,
          List.cons.injEq] at h
        obtain ⟨rfl, h2⟩ := h
        obtain ⟨ht', hr⟩ := List.append_eq_nil.mp h2.symm
        subst ht'
        exact ⟨[], [], by simp⟩
    · simp only [replaceEscape, List.cons_append, List.cons.injEq] at h
      obtain ⟨rfl, h2⟩ := h
      obtain ⟨ha', htr⟩ := List.append_eq_nil.mp h2.symm
      obtain ⟨ht, hr⟩ := List.append_eq_nil.mp htr
      exact absurd ht tne
  | case3 d b rest hcond ih =>
    intro a t r h hnl tne
    obtain ⟨rfl, rfl⟩ := hcond
    rw [show replaceEscape ('\\' :: 'n' :: rest)
        = '\n' :: replaceEscape rest from rfl] at h
    rcases a with _ | ⟨x, a'⟩
    · rcases t with _ | ⟨y, t'⟩
      · exact absurd rfl tne
      · simp only [List.nil_append, List.cons_append, List.cons.injEq] at h
        exact absurd h.1.symm (hnl y (List.mem_cons_self y t'))
    · simp only [List.cons_append, List.cons.injEq] at h
      obtain ⟨rfl, h2⟩ := h
      obtain ⟨a'', r'', hu⟩ := ih a' t r h2 hnl tne
      exact ⟨'\\' :: 'n' :: a'', r'', by rw [hu]; rfl⟩
  | case4 d b rest hcond ih =>
    intro a t r h hnl tne
    simp only [replaceEscape, if_neg hcond] at h
    rcases a with _ | ⟨x, a'⟩
    · rcases t with _ | ⟨y, t'⟩
      · exact absurd rfl tne
      · simp only [List.nil_append, List.cons_append, List.cons.injEq] at h
        obtain ⟨rfl, h2⟩ := h
        obtain ⟨r2, hr2⟩ := replace_prefix t' (b :: rest) r h2
          (fun e he => hnl e (List.mem_cons_of_mem _ he))
        exact ⟨[], r2, by rw [hr2]; rfl⟩
    · simp only [List.cons_append, List.cons.injEq] at h
      obtain ⟨rfl, h2⟩ := h
      obtain ⟨a'', r'', hu⟩ := ih a' t r h2 hnl tne
      exact ⟨d :: a'', r'', by rw [hu, List.cons_append]⟩

theorem hasTag_replaceEscape (u : List Char)
    (h : hasTag (replaceEscape u) = true) : hasTag u = true := by
  obtain ⟨a, b, hab, hsome⟩ := (hasTag_iff (replaceEscape u)).mp h
  obtain ⟨⟨t, r⟩, hmt⟩ := Option.isSome_iff_exists.mp hsome
  obtain ⟨hb, hshape⟩ := matchTagHere_decomp b t r hmt
  have hnl := tag_shape_no_newline t hshape
  have tne := tag_shape_ne_nil t hshape
  have hR : replaceEscape u = a ++ (t ++ r) := by rw [hab, hb]
  obtain ⟨a', r', hu⟩ := occ_transfer u a t r hR hnl tne
  exact (hasTag_iff u).mpr
    ⟨a', t ++ r', hu, matchTagHere_at_front t hshape r'⟩

theorem splitTagsAux_no_tag : ∀ (s acc : List Char) (fuel : Nat),
    hasTag s = false → s.length < fuel →
    splitTagsAux fuel acc s = [acc.reverse ++ s] := by
  intro s
  induction s with
  | nil =>
    intro acc fuel _ hf
    cases fuel with
    | zero => omega
    | succ f =>
      simp [splitTagsAux, show matchTagHere [] = none from rfl]
  | cons c rest ih =>
    intro acc fuel hnt hf
    cases fuel with
    | zero => omega
    | succ f =>
      have hm : matchTagHere (c :: rest) = none := by
        cases hm : matchTagHere (c :: rest) with
        | none => rfl
        | some tr => simp [hasTag, hm] at hnt
      have hrest : hasTag rest = false := by
        simp only [hasTag, hm, Option.isSome_none, Bool.false_or] at hnt
        exact hnt
      have hlen : rest.length < f := by
        simp only [List.length_cons] at hf
        omega
      simp only [splitTagsAux, hm]
      rw [ih (c :: acc) f hrest hlen]
      simp

theorem splitTags_no_tag (s : List Char) (h : hasTag s = false) :
    splitTags s = [s] := by
  have := splitTagsAux_no_tag s [] (s.length + 1) h (by omega)
  simpa [splitTags] using this

theorem classifyPart_text (t : List Char) (hne : t ≠ [])
    (hnt : hasTag t = false) : classifyPart t = some (Seg.text t) := by
  rcases t with _ | ⟨c, rest⟩
  · exact absurd rfl hne
  have hm : matchTagHere (c :: rest) = none := by
    cases hm : matchTagHere (c :: rest) with
    | none => rfl
    | some tr => simp [hasTag, hm] at hnt
  have hta : (c :: rest) ≠ atAllTag := by
    intro he
    rw [he] at hm
    exact absurd hm (by decide)
  have hiu : imageUrlAtFront (c :: rest) = none := by
    by_cases h1 : leadsWith atAllTag (c :: rest) = true
    · simp [matchTagHere, h1] at hm
    · by_cases h2 : leadsWith imgOpen (c :: rest) = true
      · cases hfc : findImgClose ((c :: rest).drop imgOpen.length) with
        | some p =>
          obtain ⟨p1, p2⟩ := p
          simp [matchTagHere, h1, h2, hfc] at hm
        | none => simp [imageUrlAtFront, h2, hfc]
      · simp [imageUrlAtFront, h2]
  simp [classifyPart, hta, hiu]

theorem replaceEscape_ne_nil (s : List Char) (h : s ≠ []) :
    replaceEscape s ≠ [] := by
  rcases s with _ | ⟨a, _ | ⟨b, rest⟩⟩
  · exact absurd rfl h
  · simp [replaceEscape]
  · simp only [replaceEscape]
    split <;> simp

/-- Claim C5 counterexample: the empty content string contains no tag, yet
the parser yields zero segments rather than exactly one Text segment. -/
theorem c5_counterexample :
    hasTag [] = false ∧ parse_content_to_message [] = [] :=
  ⟨rfl, rfl⟩

/-- Claim C5 (amended): for every non-empty content string in which the
tag regex matches nowhere, the parser yields exactly one Text segment
whose text is the input with every escaped newline replaced by an actual
newline.  (The empty string instead yields no segment at all, since
the lone empty piece `re.split` produces is dropped by the loop.) -/
theorem c5_text_segment (content : List Char) (hne : content ≠ [])
    (hnt : hasTag content = false) :
    parse_content_to_message content
      = [Seg.text (replaceEscape content)] := by
  have hR : hasTag (replaceEscape content) = false := by
    cases hR : hasTag (replaceEscape content) with
    | false => rfl
    | true => exact absurd (hasTag_replaceEscape content hR) (by simp [hnt])
  have hRne := replaceEscape_ne_nil content hne
  rw [parse_content_to_message, splitTags_no_tag _ hR]
  simp [List.filterMap_cons, classifyPart_text _ hRne hR]

/-- Witness for `c5_text_segment`: the content "a\\nb" becomes the single
Text segment "a\nb". -/
theorem c5_text_segment_witness :
    (['a', '\\', 'n', 'b'] : List Char) ≠ []
      ∧ hasTag ['a', '\\', 'n', 'b'] = false
      ∧ parse_content_to_message ['a', '\\', 'n', 'b']
          = [Seg.text ['a', '\n', 'b']] :=
  ⟨by decide, by decide,
    c5_text_segment ['a', '\\', 'n', 'b'] (by decide) (by decide)⟩
